import Mathlib

/-!
# Verification of pdfbatch.xyz core behaviors

Shallow embedding of the repository's core logic:
* the field-overlay geometry transform (`MappingStep.calculateFieldPosition`,
  together with the field-coordinate normalization in
  `fileProcessing.processPDFFile`),
* the bidirectional Hebrew/numeral text normalizer (`bidiHebrewForFields`),
* the filename template engine (`namingUtils.parseNamingTemplate`,
  `generatePreviewFilenames`' placeholder resolution,
  `generateUniqueFilename`), and
* the batch generation driver (`GenerateStep.generateZipInBrowser`).

JavaScript numbers are modelled as exact rationals (`ℚ`); all inputs the
theorems below touch stay well inside the range where IEEE doubles are exact,
so no rounding behavior is lost.  JavaScript strings are modelled as `String`
or `List Char`.  The JS remainder operator `%` on possibly-negative integers
is truncated division remainder, i.e. `Int.tmod`.
-/

namespace PdfBatch

/-! ## Geometry transform (MappingStep.calculateFieldPosition) -/

/-- A form field's rectangle in PDF point space, bottom-left origin
(fields `x`, `y`, `width`, `height` of the extracted `PDFField`). -/
structure FieldRect where
  x : ℚ
  y : ℚ
  width : ℚ
  height : ℚ
deriving DecidableEq

/-- The derived screen-space rectangle (CSS pixels, top-left origin). -/
structure ScreenRect where
  left : ℚ
  top : ℚ
  width : ℚ
  height : ℚ
deriving DecidableEq

/-- The `pdfFile.metadata` record consumed by `calculateFieldPosition`.
Every field is optional because the source reads each one with the `??`
default operator (`meta.rotation ?? 0`, `meta.cropWidth ?? meta.pageWidth
?? 595`, ...). -/
structure PdfMeta where
  rotation : Option ℤ
  cropX : Option ℚ
  cropY : Option ℚ
  cropWidth : Option ℚ
  cropHeight : Option ℚ
  pageWidth : Option ℚ
  pageHeight : Option ℚ
deriving DecidableEq

/-- The displayed preview image's CSS-pixel dimensions
(`previewDimensions` state in `MappingStep`). -/
structure PreviewDims where
  width : ℚ
  height : ℚ
deriving DecidableEq

/-- The all-`none` metadata record (`pdfFile?.metadata ?? {}` in the source). -/
def emptyMeta : PdfMeta := ⟨none, none, none, none, none, none, none⟩

/-- Embedding of `MappingStep.calculateFieldPosition`.

The source returns the degenerate zero rect when the preview dimensions are
not yet known (`!previewDimensions.width || !previewDimensions.height`),
normalizes the rotation with JS `% 360` (truncated remainder), reads the crop
box with defaults, computes the axis scales (box width/height swapped for
90°/270°), re-bases the field by the box offset, and then switches on the
rotation; a rotation matching none of the four `case` labels leaves the
output variables at their initialization value `0`.  The aspect-ratio
comparison in the source only emits a diagnostic log line and does not affect
the returned rectangle, so it has no counterpart here. -/
def calculateFieldPosition (meta? : Option PdfMeta) (field : FieldRect)
    (preview : PreviewDims) : ScreenRect :=
  if preview.width = 0 ∨ preview.height = 0 then ⟨0, 0, 0, 0⟩
  else
    let meta := meta?.getD emptyMeta
    let rotation : ℤ := (meta.rotation.getD 0).tmod 360
    let boxX := meta.cropX.getD 0
    let boxY := meta.cropY.getD 0
    let boxW := meta.cropWidth.getD (meta.pageWidth.getD 595)
    let boxH := meta.cropHeight.getD (meta.pageHeight.getD 842)
    let scaleX := preview.width / (if rotation.tmod 180 = 0 then boxW else boxH)
    let scaleY := preview.height / (if rotation.tmod 180 = 0 then boxH else boxW)
    let x := field.x - boxX
    let y := field.y - boxY
    let w := field.width
    let h := field.height
    if rotation = 0 then
      ⟨x * scaleX, (boxH - y - h) * scaleY, w * scaleX, h * scaleY⟩
    else if rotation = 90 then
      let xr := y
      let yr := boxW - (x + w)
      ⟨xr * scaleX, (boxW - yr - w) * scaleY, h * scaleX, w * scaleY⟩
    else if rotation = 180 then
      let xr := boxW - (x + w)
      let yr := boxH - (y + h)
      ⟨xr * scaleX, (boxH - yr - h) * scaleY, w * scaleX, h * scaleY⟩
    else if rotation = 270 then
      let xr := boxH - (y + h)
      let yr := x
      ⟨xr * scaleX, (boxW - yr - w) * scaleY, h * scaleX, w * scaleY⟩
    else
      ⟨0, 0, 0, 0⟩

/-! ## Upload-time field normalization (fileProcessing.processPDFFile) -/

/-- The page geometry returned by `generatePDFPreview` (rotation and CropBox). -/
structure PreviewGeom where
  rotation : ℤ
  cropX : ℚ
  cropY : ℚ
  cropWidth : ℚ
  cropHeight : ℚ
deriving DecidableEq

/-- Embedding of `processPDFFile`'s normalization step:
`x: field.x - previewResult.cropX`, `y: field.y - previewResult.cropY`. -/
def normalizeFieldRect (cropX cropY : ℚ) (f : FieldRect) : FieldRect :=
  ⟨f.x - cropX, f.y - cropY, f.width, f.height⟩

/-- The metadata record `processPDFFile` stores on the uploaded file: the
crop box plus `pageWidth`/`pageHeight` set to the crop dimensions. -/
def metadataOfPreview (g : PreviewGeom) : PdfMeta :=
  ⟨some g.rotation, some g.cropX, some g.cropY, some g.cropWidth,
    some g.cropHeight, some g.cropWidth, some g.cropHeight⟩

/-- The end-to-end extraction-to-overlay pipeline: `processPDFFile` rebases
the extracted absolute-origin field rect into crop space and stores the crop
metadata; `MappingStep.calculateFieldPosition` then computes the screen rect
from the normalized rect and that metadata. -/
def pipelineFieldPosition (g : PreviewGeom) (origField : FieldRect)
    (preview : PreviewDims) : ScreenRect :=
  calculateFieldPosition (some (metadataOfPreview g))
    (normalizeFieldRect g.cropX g.cropY origField) preview

/-- Modelled from the spec (§4.1, rotation 0): the single-subtraction
transform.  "Translate the field rectangle's origin by subtracting the box's
own offset (boxX, boxY)", then flip to top-left origin with
`screenTop = (boxHeight − fieldY − fieldHeight) × scaleY` and scale. -/
def specSingleSubtractRect (g : PreviewGeom) (f : FieldRect)
    (preview : PreviewDims) : ScreenRect :=
  let scaleX := preview.width / g.cropWidth
  let scaleY := preview.height / g.cropHeight
  let x := f.x - g.cropX
  let y := f.y - g.cropY
  ⟨x * scaleX, (g.cropHeight - y - f.height) * scaleY,
    f.width * scaleX, f.height * scaleY⟩

/-- C2: for rotation 0, field rect (10, 20, 100, 30), crop box
(0, 0, 595, 842) and a 1190×1684 preview, `calculateFieldPosition` returns
exactly the ScreenRect {left: 20, top: 1584, width: 200, height: 60}. -/
theorem calculateFieldPosition_rotation0_example :
    calculateFieldPosition
      (some ⟨some 0, some 0, some 0, some 595, some 842, some 595, some 842⟩)
      ⟨10, 20, 100, 30⟩ ⟨1190, 1684⟩ = ⟨20, 1584, 200, 60⟩ := by
  simp only [calculateFieldPosition, emptyMeta, Option.getD]
  norm_num [Int.tmod]

/-- C1: the extraction-to-overlay pipeline subtracts the crop-box offset
twice — once in `processPDFFile`'s normalization and again inside
`calculateFieldPosition` — so it disagrees with the spec's single-subtraction
transform as soon as the crop offset is nonzero.  Concretely, for a crop box
at offset (10, 20) of size 585×842 rendered 1:1, a field whose original rect
is (50, 50, 10, 10) lands at (30, 822) instead of the spec's (40, 802). -/
theorem pipeline_double_subtracts_crop_offset :
    pipelineFieldPosition ⟨0, 10, 20, 585, 842⟩ ⟨50, 50, 10, 10⟩ ⟨585, 842⟩ =
        ⟨30, 822, 10, 10⟩ ∧
      specSingleSubtractRect ⟨0, 10, 20, 585, 842⟩ ⟨50, 50, 10, 10⟩ ⟨585, 842⟩ =
        ⟨40, 802, 10, 10⟩ ∧
      pipelineFieldPosition ⟨0, 10, 20, 585, 842⟩ ⟨50, 50, 10, 10⟩ ⟨585, 842⟩ ≠
        specSingleSubtractRect ⟨0, 10, 20, 585, 842⟩ ⟨50, 50, 10, 10⟩ ⟨585, 842⟩ := by
  refine ⟨?_, ?_, ?_⟩ <;>
    simp only [pipelineFieldPosition, calculateFieldPosition, normalizeFieldRect,
      metadataOfPreview, specSingleSubtractRect, emptyMeta, Option.getD] <;>
    norm_num [Int.tmod, ScreenRect.mk.injEq]

/-- C3 (counterexample): a rotation of 45° — not in {0, 90, 180, 270} after
`% 360` — is not rejected; `calculateFieldPosition` silently returns the
degenerate zero rectangle, the same value as the "preview not ready"
sentinel.  The embedded function is total: the source has no error path for
unsupported rotations. -/
theorem rotation45_silently_returns_zero_rect :
    calculateFieldPosition
      (some ⟨some 45, some 0, some 0, some 595, some 842, some 595, some 842⟩)
      ⟨10, 20, 100, 30⟩ ⟨1190, 1684⟩ = ⟨0, 0, 0, 0⟩ := by
  simp only [calculateFieldPosition, emptyMeta, Option.getD]
  norm_num [Int.tmod]

/-- C3 (amended): for every rotation whose JS `% 360` normalization is not
one of {0, 90, 180, 270}, `calculateFieldPosition` silently falls through
every `switch` case and returns the degenerate zero ScreenRect — it never
reports an error. -/
theorem unsupported_rotation_yields_zero_rect (meta? : Option PdfMeta)
    (field : FieldRect) (preview : PreviewDims)
    (h0 : (((meta?.getD emptyMeta).rotation.getD 0).tmod 360) ≠ 0)
    (h90 : (((meta?.getD emptyMeta).rotation.getD 0).tmod 360) ≠ 90)
    (h180 : (((meta?.getD emptyMeta).rotation.getD 0).tmod 360) ≠ 180)
    (h270 : (((meta?.getD emptyMeta).rotation.getD 0).tmod 360) ≠ 270) :
    calculateFieldPosition meta? field preview = ⟨0, 0, 0, 0⟩ := by
  unfold calculateFieldPosition
  split_ifs <;> simp_all

/-- Witness for `unsupported_rotation_yields_zero_rect` at rotation 45. -/
theorem unsupported_rotation_yields_zero_rect_witness :
    calculateFieldPosition
      (some ⟨some 45, some 10, some 10, some 595, some 842, some 595, some 842⟩)
      ⟨10, 20, 100, 30⟩ ⟨400, 600⟩ = ⟨0, 0, 0, 0⟩ :=
  unsupported_rotation_yields_zero_rect _ _ _
    (by decide) (by decide) (by decide) (by decide)

/-! ## Bidirectional text normalizer (GenerateStep.bidiHebrewForFields)

The source:
```
const NUMBER_RE = /\d+(?:[.,]\d+)*\/g
function bidiHebrewForFields(input) {
  let s = String(input ?? '').normalize('NFC')
  const hasHebrew = /\p{Script=Hebrew}/u.test(s)
  s = s.replace(NUMBER_RE, (m) => LRM + LRE + m + PDF + LRM)
  if (hasHebrew) s = RLM + s
  return s
}
```
-/

/-- U+200E LEFT-TO-RIGHT MARK. -/
def LRM : Char := Char.ofNat 0x200E

/-- U+200F RIGHT-TO-LEFT MARK. -/
def RLM : Char := Char.ofNat 0x200F

/-- U+202A LEFT-TO-RIGHT EMBEDDING. -/
def LRE : Char := Char.ofNat 0x202A

/-- U+202C POP DIRECTIONAL FORMATTING (named `PDF_BIDI` in the source). -/
def PDFC : Char := Char.ofNat 0x202C

/-- The regex alternatives `[.,]` used as internal number separators. -/
def isSepChar (c : Char) : Bool := c = '.' || c = ','

/-- Models the JS regexp class `\p{Script=Hebrew}`: the assigned code points
of Unicode script Hebrew (Hebrew block U+0591–05F4 and the Hebrew letters of
the Alphabetic Presentation Forms block). -/
def isHebrewChar (c : Char) : Bool :=
  let n := c.toNat
  (0x0591 ≤ n && n ≤ 0x05C7) || (0x05D0 ≤ n && n ≤ 0x05EA) ||
    (0x05EF ≤ n && n ≤ 0x05F4) || (0xFB1D ≤ n && n ≤ 0xFB36) ||
    (0xFB38 ≤ n && n ≤ 0xFB3C) || n = 0xFB3E || (0xFB40 ≤ n && n ≤ 0xFB41) ||
    (0xFB43 ≤ n && n ≤ 0xFB44) || (0xFB46 ≤ n && n ≤ 0xFB4F)

/-- Models the JS built-in `String.prototype.normalize('NFC')` (an external
runtime function, not repository code).  It is modelled as the identity:
NFC only re-composes base-plus-combining-mark sequences and never creates,
destroys or reorders ASCII digits, `.`/`,` separators or bidi control
characters, and maps Hebrew-script characters to Hebrew-script characters —
the only aspects of the input the theorems below depend on. -/
def nfcNormalize : List Char → List Char := fun s => s

/-- Greedy scanner for the regex suffix `(?:[.,]\d+)*`: repeatedly consume a
separator followed by a maximal nonempty digit run, returning the consumed
prefix and the rest.  `fuel` bounds the recursion; every step strictly
shortens the list, so `fuel ≥ l.length` makes the fuel-exhausted branch
unreachable. -/
def scanSepsF : Nat → List Char → List Char × List Char
  | 0, l => ([], l)
  | _ + 1, [] => ([], [])
  | _ + 1, [a] => ([], [a])
  | fuel + 1, a :: b :: rest =>
    if isSepChar a && b.isDigit then
      let d := (b :: rest).takeWhile Char.isDigit
      let r := (b :: rest).dropWhile Char.isDigit
      let p := scanSepsF fuel r
      (a :: (d ++ p.1), p.2)
    else ([], a :: b :: rest)

/-- The global replace `s.replace(/\d+(?:[.,]\d+)*\/g, m => LRM+LRE+m+PDF+LRM)`:
scan left to right; at each digit, greedily match a maximal number token
(digits with internal `.`/`,` separators) and emit it wrapped as
`LRM LRE token PDF LRM`; other characters pass through.  `fuel` bounds the
recursion as in `scanSepsF`. -/
def wrapNumbersF : Nat → List Char → List Char
  | 0, l => l
  | _ + 1, [] => []
  | fuel + 1, c :: cs =>
    if c.isDigit then
      let d := (c :: cs).takeWhile Char.isDigit
      let r := (c :: cs).dropWhile Char.isDigit
      let p := scanSepsF fuel r
      LRM :: LRE :: (d ++ p.1) ++ PDFC :: LRM :: wrapNumbersF fuel p.2
    else c :: wrapNumbersF fuel cs

/-- The number-wrapping replace at sufficient fuel. -/
def wrapNumbers (s : List Char) : List Char := wrapNumbersF s.length s

/-- Embedding of `bidiHebrewForFields`: NFC-normalize, test for Hebrew
script, wrap every maximal number run in `LRM LRE … PDF LRM`, and prepend a
single RLM iff Hebrew is present. -/
def bidiHebrewForFields (input : List Char) : List Char :=
  let s := nfcNormalize input
  let hasHebrew := s.any isHebrewChar
  let s' := wrapNumbers s
  if hasHebrew then RLM :: s' else s'

/-- The shape of the optional separator tail of a matched number token:
a (possibly empty) chain of `[.,]` separators each followed by a nonempty
digit run. -/
inductive SepChain : List Char → Prop where
  | nil : SepChain []
  | cons (a : Char) (d m : List Char) (ha : isSepChar a = true) (hd : d ≠ [])
      (hdig : ∀ c ∈ d, c.isDigit = true) (hm : SepChain m) :
      SepChain (a :: (d ++ m))

/-- Every maximal digit run of the list sits inside a number token that is
wrapped in the left-to-right embedding pair `LRE … PDF` and sandwiched by
`LRM` on both sides: the list is an interleaving of non-digit characters and
wrapped number tokens, so no digit occurs outside a wrapped token. -/
inductive DigitRunsWrapped : List Char → Prop where
  | nil : DigitRunsWrapped []
  | nonDigit (c : Char) (l : List Char) (hc : c.isDigit = false)
      (hl : DigitRunsWrapped l) : DigitRunsWrapped (c :: l)
  | wrappedRun (d m l : List Char) (hd : d ≠ [])
      (hdig : ∀ c ∈ d, c.isDigit = true) (hm : SepChain m)
      (hl : DigitRunsWrapped l) :
      DigitRunsWrapped (LRM :: LRE :: (d ++ m) ++ PDFC :: LRM :: l)

theorem length_dropWhile_le (p : Char → Bool) :
    ∀ l : List Char, (l.dropWhile p).length ≤ l.length
  | [] => Nat.le_refl _
  | x :: l => by
    by_cases h : p x
    · rw [List.dropWhile_cons_of_pos h]
      exact (length_dropWhile_le p l).trans (Nat.le_succ _)
    · rw [List.dropWhile_cons_of_neg (by simpa using h)]

theorem scanSepsF_snd_length (fuel : Nat) :
    ∀ l : List Char, (scanSepsF fuel l).2.length ≤ l.length := by
  induction fuel with
  | zero => intro l; exact Nat.le_refl _
  | succ fuel ih =>
    intro l
    match l with
    | [] => exact Nat.le_refl _
    | [a] => exact Nat.le_refl _
    | a :: b :: rest =>
      by_cases h : (isSepChar a && b.isDigit) = true
      · simp only [scanSepsF]
        rw [if_pos h]
        have h1 := ih ((b :: rest).dropWhile Char.isDigit)
        have h2 := length_dropWhile_le Char.isDigit (b :: rest)
        exact (h1.trans h2).trans (by simp)
      · simp only [scanSepsF]
        rw [if_neg h]

theorem scanSepsF_fst_sepChain (fuel : Nat) :
    ∀ l : List Char, SepChain (scanSepsF fuel l).1 := by
  induction fuel with
  | zero => intro l; exact SepChain.nil
  | succ fuel ih =>
    intro l
    match l with
    | [] => exact SepChain.nil
    | [a] => exact SepChain.nil
    | a :: b :: rest =>
      by_cases h : (isSepChar a && b.isDigit) = true
      · simp only [scanSepsF]
        rw [if_pos h]
        have h' : isSepChar a = true ∧ b.isDigit = true := by
          simpa using h
        refine SepChain.cons a _ _ h'.1 ?_ ?_ (ih _)
        · rw [List.takeWhile_cons_of_pos h'.2]; simp
        · intro c hc
          exact List.mem_takeWhile_imp hc
      · simp only [scanSepsF]
        rw [if_neg h]
        exact SepChain.nil

theorem wrapNumbersF_wrapped (fuel : Nat) :
    ∀ s : List Char, s.length ≤ fuel → DigitRunsWrapped (wrapNumbersF fuel s) := by
  induction fuel with
  | zero =>
    intro s hs
    rw [List.length_eq_zero.mp (Nat.le_zero.mp hs)]
    exact DigitRunsWrapped.nil
  | succ fuel ih =>
    intro s hs
    match s with
    | [] => exact DigitRunsWrapped.nil
    | c :: cs =>
      have hcs : cs.length ≤ fuel := Nat.lt_succ_iff.mp hs
      by_cases h : c.isDigit = true
      · simp only [wrapNumbersF]
        rw [if_pos h]
        refine DigitRunsWrapped.wrappedRun _ _ _ ?_ ?_
          (scanSepsF_fst_sepChain fuel _) (ih _ ?_)
        · rw [List.takeWhile_cons_of_pos h]; simp
        · intro x hx; exact List.mem_takeWhile_imp hx
        · refine (scanSepsF_snd_length fuel _).trans ?_
          rw [List.dropWhile_cons_of_pos h]
          exact (length_dropWhile_le _ _).trans hcs
      · simp only [wrapNumbersF]
        rw [if_neg h]
        exact DigitRunsWrapped.nonDigit c _ (by simpa using h) (ih _ hcs)

/-- C4: for every input containing at least one Hebrew-script character and
at least one digit, the normalizer's output starts with a right-to-left mark
(U+200F) at position 0, and every maximal digit run of the output sits in a
number token wrapped `U+202A … U+202C` and sandwiched by U+200E on both
sides. -/
theorem bidiHebrewForFields_hebrew_digits (s : List Char)
    (hheb : s.any isHebrewChar = true) (_hdig : s.any Char.isDigit = true) :
    bidiHebrewForFields s = RLM :: wrapNumbers (nfcNormalize s) ∧
      (bidiHebrewForFields s).head? = some RLM ∧
      DigitRunsWrapped (wrapNumbers (nfcNormalize s)) := by
  have h1 : bidiHebrewForFields s = RLM :: wrapNumbers (nfcNormalize s) := by
    simp only [bidiHebrewForFields, nfcNormalize, hheb, if_true]
  refine ⟨h1, by rw [h1]; rfl, ?_⟩
  exact wrapNumbersF_wrapped _ _ (Nat.le_refl _)

/-- Witness for `bidiHebrewForFields_hebrew_digits` at the input
"ש42" (Hebrew letter shin followed by a digit run). -/
theorem bidiHebrewForFields_hebrew_digits_witness :
    bidiHebrewForFields [Char.ofNat 0x05E9, '4', '2'] =
        RLM :: wrapNumbers (nfcNormalize [Char.ofNat 0x05E9, '4', '2']) ∧
      (bidiHebrewForFields [Char.ofNat 0x05E9, '4', '2']).head? = some RLM ∧
      DigitRunsWrapped (wrapNumbers (nfcNormalize [Char.ofNat 0x05E9, '4', '2'])) :=
  bidiHebrewForFields_hebrew_digits _ (by decide) (by decide)

/-- C5 (counterexample): the input "Hello 123 World" has no Hebrew, yet the
normalizer does NOT return it unchanged — the digit run "123" is still
wrapped in directional controls (wrapping is unconditional in the source;
only the RLM prefix is conditional on Hebrew). -/
theorem bidiHebrewForFields_no_hebrew_still_wraps :
    bidiHebrewForFields "Hello 123 World".toList ≠ "Hello 123 World".toList ∧
      LRE ∈ bidiHebrewForFields "Hello 123 World".toList := by
  constructor <;> decide

/-- C5 (amended): with no Hebrew present, the output carries no RLM prefix,
but digit runs are still wrapped: "Hello 123 World" maps to
"Hello " ++ LRM LRE "123" PDF LRM ++ " World". -/
theorem bidiHebrewForFields_hello123 :
    bidiHebrewForFields "Hello 123 World".toList =
      "Hello ".toList ++ [LRM, LRE] ++ "123".toList ++ [PDFC, LRM] ++ " World".toList := by
  decide

/-! ## Filename template engine (namingUtils.ts) -/

/-- The character `{` (written via its code point to keep string literals
free of braces). -/
def lbrace : Char := Char.ofNat 0x7B

/-- The character `}`. -/
def rbrace : Char := Char.ofNat 0x7D

/-- Embedding of the `while ((match = /\x7b([^\x7d]+)\x7d/g.exec(template)))`
loop of `parseNamingTemplate`: scan left to right; at an opening brace whose
greedy non-`}` content is nonempty and is followed by a closing brace, record
the content and resume after the closing brace; otherwise resume scanning at
the next character, exactly as the regex engine advances its start position.
`fuel` bounds the recursion; every recursive call strictly shortens the list,
so `fuel ≥ l.length` makes the fuel-exhausted branch unreachable. -/
def extractPlaceholdersF : Nat → List Char → List (List Char)
  | 0, _ => []
  | _ + 1, [] => []
  | fuel + 1, c :: cs =>
    if c = lbrace then
      let content := cs.takeWhile (fun x => x != rbrace)
      match cs.dropWhile (fun x => x != rbrace) with
      | r :: rest' =>
        if r = rbrace then
          if content.isEmpty then extractPlaceholdersF fuel cs
          else content :: extractPlaceholdersF fuel rest'
        else extractPlaceholdersF fuel cs
      | [] => extractPlaceholdersF fuel cs
    else extractPlaceholdersF fuel cs

/-- The placeholder tokens of a template, in order of occurrence, one entry
per occurrence (the list `placeholders.push(match[1])` builds). -/
def extractPlaceholders (template : List Char) : List (List Char) :=
  extractPlaceholdersF template.length template

/-- The result record of `parseNamingTemplate`. -/
structure ParsedTemplate where
  placeholders : List (List Char)
  isValid : Bool
  errors : List String
deriving DecidableEq

/-- Embedding of `parseNamingTemplate`: extract the placeholder tokens,
compare the `{` and `}` counts, and declare the template valid when the
counts balance and at least one placeholder was found. -/
def parseNamingTemplate (template : List Char) : ParsedTemplate :=
  let placeholders := extractPlaceholders template
  let openBraces := template.count lbrace
  let closeBraces := template.count rbrace
  let errors :=
    if openBraces ≠ closeBraces then ["Mismatched braces in template"] else []
  ⟨placeholders, errors.isEmpty && !placeholders.isEmpty, errors⟩

/-- Keep only the first occurrence of each element, preserving order. -/
def dedupFirst (l : List (List Char)) : List (List Char) :=
  l.foldl (fun acc a => if a ∈ acc then acc else acc ++ [a]) []

/-- Modelled from the spec (§3, NamingTemplate invariant): "the set of
`{...}` tokens found in `template`, in order of first appearance, allowing
duplicates in the template to collapse to one entry per distinct name". -/
def specPlaceholders (template : List Char) : List (List Char) :=
  dedupFirst (extractPlaceholders template)

/-- C8 (counterexample): on the template "x{A}y{A}" the source keeps one
placeholders entry per occurrence, `["A", "A"]`, not the collapsed `["A"]`
the claim requires.  (Keeping duplicates is what makes the later
first-occurrence `replace` substitute every occurrence.) -/
theorem parseNamingTemplate_keeps_duplicates :
    (parseNamingTemplate
        ['x', lbrace, 'A', rbrace, 'y', lbrace, 'A', rbrace]).placeholders =
      [['A'], ['A']] ∧
    specPlaceholders ['x', lbrace, 'A', rbrace, 'y', lbrace, 'A', rbrace] =
      [['A']] ∧
    (parseNamingTemplate
        ['x', lbrace, 'A', rbrace, 'y', lbrace, 'A', rbrace]).placeholders ≠
      specPlaceholders ['x', lbrace, 'A', rbrace, 'y', lbrace, 'A', rbrace] := by
  refine ⟨?_, ?_, ?_⟩ <;> decide

/-- A template described as alternating literal runs and `{name}` tokens. -/
inductive TemplateSeg where
  | lit : List Char → TemplateSeg
  | ph : List Char → TemplateSeg

/-- Render one segment to characters. -/
def renderSeg : TemplateSeg → List Char
  | .lit l => l
  | .ph n => lbrace :: (n ++ [rbrace])

/-- Render a segment list to a template string. -/
def renderTemplate (segs : List TemplateSeg) : List Char :=
  (segs.map renderSeg).flatten

/-- The token names of a segment list, one entry per occurrence, in order. -/
def segNames : List TemplateSeg → List (List Char)
  | [] => []
  | .lit _ :: rest => segNames rest
  | .ph n :: rest => n :: segNames rest

/-- Well-formedness of a segment: literal runs contain no opening brace and
token names are nonempty and contain no closing brace. -/
def goodSeg : TemplateSeg → Bool
  | .lit l => !l.contains lbrace
  | .ph n => !n.isEmpty && !n.contains rbrace

theorem extract_skips_literal (l : List Char) (hl : l.contains lbrace = false) :
    ∀ (fuel : Nat) (s : List Char),
      extractPlaceholdersF (l.length + fuel) (l ++ s) = extractPlaceholdersF fuel s := by
  induction l with
  | nil => intro fuel s; rw [List.nil_append, List.length_nil, Nat.zero_add]
  | cons c l' ih =>
    intro fuel s
    have hc : ¬(c = lbrace) := by
      simp only [List.contains_cons, Bool.or_eq_false_iff, beq_eq_false_iff_ne] at hl
      exact fun h => hl.1 h.symm
    have hl' : l'.contains lbrace = false := by
      simp only [List.contains_cons, Bool.or_eq_false_iff] at hl
      exact hl.2
    have hlen : (c :: l').length + fuel = (l'.length + fuel) + 1 := by
      simp [Nat.add_comm, Nat.add_assoc, Nat.add_left_comm]
    rw [hlen]
    show extractPlaceholdersF ((l'.length + fuel) + 1) (c :: (l' ++ s)) = _
    simp only [extractPlaceholdersF]
    rw [if_neg hc]
    exact ih hl' fuel s

theorem takeWhile_until_rbrace (n : List Char) (hn : n.contains rbrace = false) :
    ∀ t : List Char,
      (n ++ rbrace :: t).takeWhile (fun x => x != rbrace) = n ∧
      (n ++ rbrace :: t).dropWhile (fun x => x != rbrace) = rbrace :: t := by
  induction n with
  | nil =>
    intro t
    constructor
    · rw [List.nil_append, List.takeWhile_cons_of_neg]; simp
    · rw [List.nil_append, List.dropWhile_cons_of_neg]; simp
  | cons c n' ih =>
    intro t
    have hc : (c != rbrace) = true := by
      simp only [List.contains_cons, Bool.or_eq_false_iff, beq_eq_false_iff_ne] at hn
      simpa [bne_iff_ne] using fun h => hn.1 h.symm
    have hn' : n'.contains rbrace = false := by
      simp only [List.contains_cons, Bool.or_eq_false_iff] at hn
      exact hn.2
    constructor
    · rw [List.cons_append,
        List.takeWhile_cons_of_pos (p := fun x => x != rbrace) hc]
      rw [(ih hn' t).1]
    · rw [List.cons_append,
        List.dropWhile_cons_of_pos (p := fun x => x != rbrace) hc]
      exact (ih hn' t).2

theorem extract_render (segs : List TemplateSeg)
    (hgood : ∀ seg ∈ segs, goodSeg seg = true) :
    ∀ fuel : Nat,
      extractPlaceholdersF ((renderTemplate segs).length + fuel)
        (renderTemplate segs) = segNames segs := by
  induction segs with
  | nil =>
    intro fuel
    cases fuel <;> simp [renderTemplate, extractPlaceholdersF, segNames]
  | cons seg rest ih =>
    intro fuel
    have hseg : goodSeg seg = true := hgood seg (List.mem_cons_self _ _)
    have hrest : ∀ s ∈ rest, goodSeg s = true :=
      fun s hs => hgood s (List.mem_cons_of_mem _ hs)
    match seg with
    | .lit l =>
      have hl : l.contains lbrace = false := by
        simpa [goodSeg] using hseg
      have : renderTemplate (TemplateSeg.lit l :: rest) = l ++ renderTemplate rest := by
        simp [renderTemplate, renderSeg]
      rw [this]
      have hlen : (l ++ renderTemplate rest).length + fuel =
          l.length + ((renderTemplate rest).length + fuel) := by
        simp [List.length_append, Nat.add_assoc]
      rw [hlen, extract_skips_literal l hl, ih hrest]
      simp [segNames]
    | .ph n =>
      have hn1 : n.isEmpty = false := by
        simp only [goodSeg, Bool.and_eq_true, Bool.not_eq_true'] at hseg
        exact hseg.1
      have hn2 : n.contains rbrace = false := by
        simp only [goodSeg, Bool.and_eq_true, Bool.not_eq_true'] at hseg
        exact hseg.2
      have hrender : renderTemplate (TemplateSeg.ph n :: rest) =
          lbrace :: (n ++ rbrace :: renderTemplate rest) := by
        simp [renderTemplate, renderSeg]
      rw [hrender]
      have hlen : (lbrace :: (n ++ rbrace :: renderTemplate rest)).length + fuel =
          ((n.length + 1 + (renderTemplate rest).length) + fuel) + 1 := by
        simp [List.length_append, List.length_cons]
        omega
      rw [hlen]
      show extractPlaceholdersF (((n.length + 1 + (renderTemplate rest).length) + fuel) + 1)
          (lbrace :: (n ++ rbrace :: renderTemplate rest)) = _
      simp only [extractPlaceholdersF]
      rw [(takeWhile_until_rbrace n hn2 _).1, (takeWhile_until_rbrace n hn2 _).2]
      have hfuel : n.length + 1 + (renderTemplate rest).length + fuel =
          (renderTemplate rest).length + (n.length + 1 + fuel) := by omega
      simp only [hn1, hfuel, segNames, if_true, eq_self_iff_true,
        Bool.false_eq_true, if_false, ih hrest]

/-- C8 (amended): the `placeholders` list holds the `{...}` token names in
order of appearance with one entry PER OCCURRENCE — duplicates of a name are
kept, not collapsed.  (Each occurrence then resolves independently because
the later non-global `replace` substitutes one occurrence per entry.) -/
theorem parseNamingTemplate_placeholders_per_occurrence
    (segs : List TemplateSeg) (hgood : ∀ seg ∈ segs, goodSeg seg = true) :
    (parseNamingTemplate (renderTemplate segs)).placeholders = segNames segs := by
  show extractPlaceholders (renderTemplate segs) = segNames segs
  unfold extractPlaceholders
  have := extract_render segs hgood 0
  simpa using this

/-- Witness for `parseNamingTemplate_placeholders_per_occurrence` on the
segment form of "x{A}y{A}": both occurrences of A are kept. -/
theorem parseNamingTemplate_placeholders_per_occurrence_witness :
    (parseNamingTemplate (renderTemplate
        [.lit ['x'], .ph ['A'], .lit ['y'], .ph ['A']])).placeholders =
      [['A'], ['A']] :=
  parseNamingTemplate_placeholders_per_occurrence
    [.lit ['x'], .ph ['A'], .lit ['y'], .ph ['A']] (by decide)

/-! ## Placeholder resolution (generatePreviewFilenames vs. generateZipInBrowser) -/

/-- A CSV data row: `Record<string, string>` as an association list. -/
abbrev DataRow := List (String × String)

/-- Property access `row[key]` on a CSV row record. -/
def lookupRow (row : DataRow) (key : String) : Option String :=
  (row.find? (fun p => p.1 == key)).map (fun p => p.2)

/-- The Timestamp format of both resolvers:
`new Date().toISOString().slice(0, 19).replace(/[:.]/g, '-')`, applied to a
caller-supplied ISO timestamp string (the wall clock is external). -/
def tsFormatOf (nowISO : String) : String :=
  String.mk ((nowISO.toList.take 19).map
    (fun c => if c = ':' || c = '.' then '-' else c))

/-- Embedding of the per-placeholder value resolution of
`generatePreviewFilenames` (namingUtils.ts): first a matching CSV column
(falling back to `Sample_<i+1>` when the cell is empty or absent), then a
matching PDF field name (`Field_<name>_Value`), then the reserved names
`Row_Number` and `Timestamp`, and finally the fallback `Unknown_<name>`.
Columns and fields are represented by their name lists. -/
def resolvePreviewValue (columns fields : List String) (row : DataRow)
    (index : Nat) (nowISO : String) (ph : String) : String :=
  match columns.find? (fun c => c == ph) with
  | some c =>
    match lookupRow row c with
    | some v => if v = "" then "Sample_" ++ toString (index + 1) else v
    | none => "Sample_" ++ toString (index + 1)
  | none =>
    match fields.find? (fun f => f == ph) with
    | some f => "Field_" ++ f ++ "_Value"
    | none =>
      if ph = "Row_Number" then toString (index + 1)
      else if ph = "Timestamp" then tsFormatOf nowISO
      else "Unknown_" ++ ph

/-- Embedding of the per-placeholder value resolution inside
`generateZipInBrowser` (GenerateStep): `Row_Number` first, then `Timestamp`,
then the CSV cell if truthy (nonempty), otherwise the value stays the empty
string — no field-name lookup and no `Unknown_` fallback. -/
def resolveGenerationValue (row : DataRow) (rowNumber : Nat)
    (nowISO : String) (ph : String) : String :=
  if ph = "Row_Number" then toString rowNumber
  else if ph = "Timestamp" then tsFormatOf nowISO
  else
    match lookupRow row ph with
    | some v => if v = "" then "" else v
    | none => ""

/-- C7 (counterexample): the generation driver does not follow the claimed
priority order.  A CSV column literally named `Row_Number` is shadowed by the
reserved name (the row value "X" is ignored in favor of the row index), and
an unresolvable placeholder becomes the empty string, not
`Unknown_<name>`. -/
theorem resolveGenerationValue_breaks_priority :
    resolveGenerationValue [("Row_Number", "X")] 5 "2024-01-01T00:00:00.000Z"
        "Row_Number" = "5" ∧
      ("5" : String) ≠ "X" ∧
      resolveGenerationValue [] 1 "2024-01-01T00:00:00.000Z" "Customer" = "" ∧
      ("" : String) ≠ "Unknown_Customer" := by
  refine ⟨?_, ?_, ?_, ?_⟩ <;> decide

/-- C7 (amended): the preview resolver follows
column → field → Row_Number → Timestamp → `Unknown_<name>` (a column wins
even over reserved names), while the generation resolver checks the reserved
names `Row_Number`/`Timestamp` FIRST, then the CSV cell, and otherwise
substitutes the empty string — it never consults field names and never emits
`Unknown_`. -/
theorem placeholder_resolution_order :
    (∀ (columns fields : List String) (row : DataRow) (index : Nat)
        (nowISO ph v : String), ph ∈ columns → lookupRow row ph = some v →
        v ≠ "" → resolvePreviewValue columns fields row index nowISO ph = v) ∧
      (∀ (columns fields : List String) (row : DataRow) (index : Nat)
        (nowISO ph : String), ph ∉ columns → ph ∉ fields →
        ph ≠ "Row_Number" → ph ≠ "Timestamp" →
        resolvePreviewValue columns fields row index nowISO ph =
          "Unknown_" ++ ph) ∧
      (∀ (row : DataRow) (n : Nat) (nowISO : String),
        resolveGenerationValue row n nowISO "Row_Number" = toString n) ∧
      (∀ (row : DataRow) (n : Nat) (nowISO ph : String), ph ≠ "Row_Number" →
        ph ≠ "Timestamp" → lookupRow row ph = none →
        resolveGenerationValue row n nowISO ph = "") := by
  refine ⟨?_, ?_, ?_, ?_⟩
  · intro columns fields row index nowISO ph v hmem hlook hv
    have hfind : ∃ c, columns.find? (fun c => c == ph) = some c := by
      cases hfound : columns.find? (fun c => c == ph) with
      | none =>
        exact absurd (List.find?_eq_none.mp hfound ph hmem) (by simp)
      | some c => exact ⟨c, rfl⟩
    obtain ⟨c, hc⟩ := hfind
    have hceq : c = ph := by
      have := List.find?_some hc
      simpa [beq_iff_eq] using this
    subst hceq
    simp only [resolvePreviewValue, hc, hlook]
    rw [if_neg hv]
  · intro columns fields row index nowISO ph hcol hfld hrn hts
    have hc : columns.find? (fun c => c == ph) = none := by
      rw [List.find?_eq_none]
      intro x hx
      simp only [beq_iff_eq]
      exact fun h => hcol (h ▸ hx)
    have hf : fields.find? (fun f => f == ph) = none := by
      rw [List.find?_eq_none]
      intro x hx
      simp only [beq_iff_eq]
      exact fun h => hfld (h ▸ hx)
    simp only [resolvePreviewValue, hc, hf]
    rw [if_neg hrn, if_neg hts]
  · intro row n nowISO
    rfl
  · intro row n nowISO ph hrn hts hlook
    simp only [resolveGenerationValue, hlook]
    rw [if_neg hrn, if_neg hts]

/-- Witness for `placeholder_resolution_order`: a column named `Row_Number`
with value "X" beats the reserved name in the preview resolver; an unknown
placeholder becomes `Unknown_Foo` in the preview resolver; the reserved name
beats the same-named column in the generation resolver; an unknown
placeholder becomes "" in the generation resolver. -/
theorem placeholder_resolution_order_witness :
    resolvePreviewValue ["Row_Number"] [] [("Row_Number", "X")] 0 "t"
        "Row_Number" = "X" ∧
      resolvePreviewValue [] [] [] 0 "t" "Foo" = "Unknown_Foo" ∧
      resolveGenerationValue [("Row_Number", "X")] 5 "t" "Row_Number" = "5" ∧
      resolveGenerationValue [] 1 "t" "Customer" = "" :=
  ⟨placeholder_resolution_order.1 ["Row_Number"] [] [("Row_Number", "X")] 0
      "t" "Row_Number" "X" (by decide) (by decide) (by decide),
    placeholder_resolution_order.2.1 [] [] [] 0 "t" "Foo" (by decide)
      (by decide) (by decide) (by decide),
    placeholder_resolution_order.2.2.1 [("Row_Number", "X")] 5 "t",
    placeholder_resolution_order.2.2.2 [] 1 "t" "Customer" (by decide)
      (by decide) (by decide)⟩

/-! ## Filename de-duplication (generateUniqueFilename) -/

/-- The `lastIndexOf` of a character, as in JS: the greatest index holding
the character, or −1 when absent. -/
def lastIndexOfChar (c : Char) (s : List Char) : Int :=
  (s.foldl
    (fun acc x =>
      (acc.1 + 1, if x = c then acc.1 + 1 else acc.2))
    ((-1 : Int), (-1 : Int))).2

/-- The candidate `generateUniqueFilename` builds on a collision: insert
`_counter` before the last-dot extension when the last dot sits at a
positive index, else append `_counter` to the whole name. -/
def uniqueCandidate (base : String) (counter : Nat) : String :=
  let i := lastIndexOfChar '.' base.toList
  if i > 0 then
    String.mk (base.toList.take i.toNat) ++ "_" ++ toString counter ++
      String.mk (base.toList.drop i.toNat)
  else base ++ "_" ++ toString counter

/-- The collision `while` loop, counting up until the candidate is unused.
The JS loop terminates because the candidates for distinct counters are
pairwise distinct strings, so at most `used.length` membership tests can
succeed; fuel `used.length + 1` therefore makes the fuel-exhausted branch
unreachable. -/
def dedupLoop (candidate : Nat → String) (used : List String) :
    Nat → String → Nat → String
  | 0, current, _ => current
  | fuel + 1, current, counter =>
    if current ∈ used then
      dedupLoop candidate used fuel (candidate counter) (counter + 1)
    else current

/-- Embedding of `generateUniqueFilename`: find the first unused name
(`base`, then `base_1`, `base_2`, … with the counter before the extension),
record it in the de-duplication set, and return both. -/
def generateUniqueFilename (base : String) (existing : List String) :
    String × List String :=
  let result :=
    dedupLoop (uniqueCandidate base) existing (existing.length + 1) base 1
  (result, result :: existing)

/-- C9: requesting `name.pdf` three times starting from an empty
de-duplication set yields `name.pdf`, `name_1.pdf`, `name_2.pdf` in that
order, and the final set holds exactly those three names (every issued name,
including the first, was recorded). -/
theorem generateUniqueFilename_three_requests :
    (generateUniqueFilename "name.pdf" []).1 = "name.pdf" ∧
      (generateUniqueFilename "name.pdf"
        (generateUniqueFilename "name.pdf" []).2).1 = "name_1.pdf" ∧
      (generateUniqueFilename "name.pdf"
        (generateUniqueFilename "name.pdf"
          (generateUniqueFilename "name.pdf" []).2).2).1 = "name_2.pdf" ∧
      (generateUniqueFilename "name.pdf"
        (generateUniqueFilename "name.pdf"
          (generateUniqueFilename "name.pdf" []).2).2).2 =
        ["name_2.pdf", "name_1.pdf", "name.pdf"] := by
  refine ⟨?_, ?_, ?_, ?_⟩ <;> decide

/-! ## Batch generation driver (GenerateStep.generateZipInBrowser)

The pdf-lib document is modelled as its observable form state: the list of
named text fields with their current values.  `PDFDocument.load` and
`pdfDoc.save()` are external library calls that can throw; they are passed in
as `Except`-valued oracles.  `registerFontkit`, `embedFont` and
`updateFieldAppearances` change no form values; a failure in any of them is
covered by the same row-level `catch` as load/save and is subsumed by the
oracles' error channels.  The chunk loop (`chunkSize = 5` with a `setTimeout`
yield between chunks) visits the rows in exactly row order and only inserts
cooperative pauses, so it is flattened into one traversal. -/

/-- A field mapping as used during generation: the PDF field name to write
and the CSV column name to read. -/
structure GenFieldMapping where
  fieldName : String
  columnName : String
deriving DecidableEq

/-- The observable form state of one loaded template document. -/
abbrev Doc := List (String × String)

/-- Serialized document bytes (opaque at this level). -/
abbrev PdfBytes := List Nat

/-- Embedding of `form.getField(name)`: pdf-lib throws when the named field
is absent, which the per-mapping `catch (fieldError)` turns into skipping the
mapping. -/
def getFieldE (doc : Doc) (name : String) : Except String String :=
  match doc.find? (fun p => p.1 == name) with
  | some p => .ok p.2
  | none => .error "field not found"

/-- Embedding of `field.setText(value)` on the form state. -/
def setFieldText (doc : Doc) (name v : String) : Doc :=
  doc.map (fun p => if p.1 = name then (p.1, v) else p)

/-- The `cleanValue` step of the mapping loop:
NFC-normalize, then remove the characters U+202A through U+202E
(the `replace` with the embedding/override-control regexp class). -/
def stripEmbeddingControls (s : List Char) : List Char :=
  s.filter (fun c => !(0x202A ≤ c.toNat && c.toNat ≤ 0x202E))

/-- The processed value written into a field during generation:
clean, then `bidiHebrewForFields`. -/
def processFieldValue (v : String) : String :=
  String.mk (bidiHebrewForFields (stripEmbeddingControls (nfcNormalize v.toList)))

/-- One iteration of the mapping loop: look the field up (a missing field
throws, is caught, logged and skipped), read the row cell with `|| ''`, and
only when both field and value are truthy write the processed value. -/
def applyMapping (doc : Doc) (row : DataRow) (m : GenFieldMapping) : Doc :=
  match getFieldE doc m.fieldName with
  | .error _ => doc
  | .ok _ =>
    let value := (lookupRow row m.columnName).getD ""
    if value = "" then doc
    else setFieldText doc m.fieldName (processFieldValue value)

/-- The full `for (const mapping of mappings)` loop for one row. -/
def fillRow (doc : Doc) (row : DataRow) (mappings : List GenFieldMapping) : Doc :=
  mappings.foldl (fun d m => applyMapping d row m) doc

/-- The invisible bidi controls stripped by `sanitizeFilename`
(U+200E, U+200F, U+202A–U+202E). -/
def isStrippedBidiControl (c : Char) : Bool :=
  c.toNat = 0x200E || c.toNat = 0x200F ||
    (0x202A ≤ c.toNat && c.toNat ≤ 0x202E)

/-- Models the JS regexp class `\p{L}` (a letter of any script, an external
Unicode property table).  Executable approximation covering the scripts this
application handles (ASCII Latin and Hebrew); none of the theorems below
depend on the exact extension of the class. -/
def isUnicodeLetter (c : Char) : Bool := c.isAlpha || isHebrewChar c

/-- The character class kept by the replacement step of `sanitizeFilename`:
letters, digits, space, `.`, `_`, `-` and Hebrew geresh/gershayim. -/
def isAllowedFilenameChar (c : Char) : Bool :=
  isUnicodeLetter c || c.isDigit || c = ' ' || c = '.' || c = '_' ||
    c = '-' || c.toNat = 0x05F3 || c.toNat = 0x05F4

/-- The JS regexp class `\s` (whitespace). -/
def isJsWhitespace (c : Char) : Bool :=
  let n := c.toNat
  c = ' ' || (0x09 ≤ n && n ≤ 0x0D) || n = 0xA0 || n = 0x1680 ||
    (0x2000 ≤ n && n ≤ 0x200A) || n = 0x2028 || n = 0x2029 || n = 0x202F ||
    n = 0x205F || n = 0x3000 || n = 0xFEFF

/-- Collapse every maximal run of characters satisfying `p` to the single
replacement character (the global replaces `/\s+/g → ' '` and
`/_+/g → '_'`). -/
def collapseRuns (p : Char → Bool) (rep : Char) : List Char → List Char
  | [] => []
  | [c] => if p c then [rep] else [c]
  | c :: d :: rest =>
    if p c then
      if p d then collapseRuns p rep (d :: rest)
      else rep :: collapseRuns p rep (d :: rest)
    else c :: collapseRuns p rep (d :: rest)

/-- JS `String.prototype.trim()`: strip leading and trailing whitespace. -/
def trimJs (s : List Char) : List Char :=
  ((s.dropWhile isJsWhitespace).reverse.dropWhile isJsWhitespace).reverse

/-- Embedding of `sanitizeFilename` (identical inline in GenerateStep and in
namingUtils.ts): NFC, strip bidi controls, replace disallowed characters by
`_`, collapse whitespace and underscore runs, trim, truncate to 120. -/
def sanitizeFilename (input : String) : String :=
  let s := nfcNormalize input.toList
  let s := s.filter (fun c => !isStrippedBidiControl c)
  let s := s.map (fun c => if isAllowedFilenameChar c then c else '_')
  let s := collapseRuns isJsWhitespace ' ' s
  let s := collapseRuns (fun c => c = '_') '_' s
  let s := trimJs s
  String.mk (s.take 120)

/-- Replace the first occurrence of `pat` in `s` by `repl`
(JS non-global `String.prototype.replace` with a string pattern). -/
def replaceFirst : List Char → List Char → List Char → List Char
  | [], pat, repl => if pat.isEmpty then repl else []
  | c :: cs, pat, repl =>
    if pat.isPrefixOf (c :: cs) then repl ++ (c :: cs).drop pat.length
    else c :: replaceFirst cs pat repl

/-- String wrapper for `replaceFirst`. -/
def replaceFirstS (s pat repl : String) : String :=
  String.mk (replaceFirst s.toList pat.toList repl.toList)

/-- The check `filename.toLowerCase().endsWith('.pdf')` (ASCII lowering
suffices for the ASCII suffix being tested). -/
def endsWithPdfCI (s : String) : Bool :=
  ['.', 'p', 'd', 'f'].isSuffixOf (s.toList.map Char.toLower)

/-- The `NamingTemplate` record the driver receives: the raw template and
its placeholder list. -/
structure NamingTemplateT where
  template : String
  placeholders : List String

/-- The filename block of `generateZipInBrowser`: for each placeholder
entry, resolve (Row_Number / Timestamp / cell / empty), sanitize, substitute
the first occurrence of the token, then ensure the `.pdf` extension. -/
def buildGenFilename (nt : NamingTemplateT) (row : DataRow) (rowNumber : Nat)
    (nowISO : String) : String :=
  let base := nt.placeholders.foldl
    (fun fn ph =>
      let v := resolveGenerationValue row rowNumber nowISO ph
      replaceFirstS fn (lbrace.toString ++ ph ++ rbrace.toString)
        (sanitizeFilename v))
    nt.template
  if endsWithPdfCI base then base else base ++ ".pdf"

/-- The collision candidate of the inline duplicate-handling block of
`generateZipInBrowser` (unlike `namingUtils.generateUniqueFilename` it has
no `extensionIndex > 0` guard; JS `substring` clamps a −1 index to 0). -/
def zipCandidate (filename : String) (counter : Nat) : String :=
  let j := (max (lastIndexOfChar '.' filename.toList) 0).toNat
  String.mk (filename.toList.take j) ++ "_" ++ toString counter ++
    String.mk (filename.toList.drop j)

/-- The inline de-duplication loop of `generateZipInBrowser`. -/
def uniquifyForZip (filename : String) (used : List String) : String :=
  dedupLoop (zipCandidate filename) used (used.length + 1) filename 1

/-- One row of `generateZipInBrowser`: load a fresh copy of the template
(fatal on error), fill every mapping (each individually non-fatal), build
and de-duplicate the filename, record it in the used set, then serialize
(fatal on error) and emit the archive entry. -/
def processRow (loadTemplate : Except String Doc)
    (saveDoc : Doc → Except String PdfBytes)
    (mappings : List GenFieldMapping) (nt : NamingTemplateT) (nowISO : String)
    (used : List String) (rowNumber : Nat) (row : DataRow) :
    Except String (String × PdfBytes × List String) :=
  match loadTemplate with
  | .error e => .error e
  | .ok doc =>
    let filled := fillRow doc row mappings
    let filename := buildGenFilename nt row rowNumber nowISO
    let unique := uniquifyForZip filename used
    let used' := unique :: used
    match saveDoc filled with
    | .error e => .error e
    | .ok bytes => .ok (unique, bytes, used')

/-- The row traversal of `generateZipInBrowser`: a row-level error is
re-thrown as `Failed to process row N`, aborting the whole batch with no
archive; otherwise the archive accumulates `(filename, bytes)` entries. -/
def generateZipRows (loadTemplate : Except String Doc)
    (saveDoc : Doc → Except String PdfBytes)
    (mappings : List GenFieldMapping) (nt : NamingTemplateT)
    (nowISO : String) :
    List DataRow → Nat → List String → List (String × PdfBytes) →
      Except String (List (String × PdfBytes))
  | [], _, _, acc => .ok acc.reverse
  | row :: rest, n, used, acc =>
    match processRow loadTemplate saveDoc mappings nt nowISO used n row with
    | .error e =>
      .error ("Failed to process row " ++ toString n ++ ": " ++ e)
    | .ok (fn, bytes, used') =>
      generateZipRows loadTemplate saveDoc mappings nt nowISO rest (n + 1)
        used' ((fn, bytes) :: acc)

/-- Embedding of `generateZipInBrowser`: process all rows starting at row
number 1 with an empty de-duplication set and an empty archive. -/
def generateZipInBrowser (loadTemplate : Except String Doc)
    (saveDoc : Doc → Except String PdfBytes)
    (mappings : List GenFieldMapping) (nt : NamingTemplateT)
    (nowISO : String) (rows : List DataRow) :
    Except String (List (String × PdfBytes)) :=
  generateZipRows loadTemplate saveDoc mappings nt nowISO rows 1 [] []

theorem setFieldText_names (doc : Doc) (name v : String) :
    (setFieldText doc name v).map Prod.fst = doc.map Prod.fst := by
  induction doc with
  | nil => rfl
  | cons p rest ih =>
    simp only [setFieldText, List.map_cons] at ih ⊢
    by_cases h : p.1 = name
    · rw [if_pos h]; simpa using ih
    · rw [if_neg h]; simpa using ih

theorem applyMapping_names (doc : Doc) (row : DataRow) (m : GenFieldMapping) :
    (applyMapping doc row m).map Prod.fst = doc.map Prod.fst := by
  unfold applyMapping
  cases getFieldE doc m.fieldName with
  | error e => rfl
  | ok v =>
    by_cases h : ((lookupRow row m.columnName).getD "") = ""
    · rw [if_pos h]
    · rw [if_neg h]
      exact setFieldText_names _ _ _

theorem getFieldE_error_of_not_mem (doc : Doc) (name : String)
    (h : name ∉ doc.map Prod.fst) :
    getFieldE doc name = .error "field not found" := by
  unfold getFieldE
  have : doc.find? (fun p => p.1 == name) = none := by
    rw [List.find?_eq_none]
    intro p hp
    simp only [beq_iff_eq]
    intro heq
    exact h (heq ▸ List.mem_map_of_mem Prod.fst hp)
  rw [this]

theorem applyMapping_missing_field (doc : Doc) (row : DataRow)
    (m : GenFieldMapping) (h : m.fieldName ∉ doc.map Prod.fst) :
    applyMapping doc row m = doc := by
  unfold applyMapping
  rw [getFieldE_error_of_not_mem doc m.fieldName h]

theorem fillRow_names (doc : Doc) (row : DataRow) :
    ∀ mappings : List GenFieldMapping,
      (fillRow doc row mappings).map Prod.fst = doc.map Prod.fst := by
  intro mappings
  induction mappings generalizing doc with
  | nil => rfl
  | cons m rest ih =>
    show (fillRow (applyMapping doc row m) row rest).map Prod.fst = _
    rw [ih (applyMapping doc row m), applyMapping_names]

/-- C6: error semantics of the batch driver.
(1) A mapping whose field is missing from the template document is skipped:
dropping it from the mapping list leaves the filled row unchanged, so the
remaining mappings still apply.  (2) When loading succeeds and serialization
succeeds for every document, the whole batch succeeds — a missing field
never aborts it.  (3) A load error aborts the entire batch with a
`Failed to process row` error and no archive.  (4) A serialization error
likewise aborts the entire batch. -/
theorem generateZip_error_semantics :
    (∀ (doc : Doc) (row : DataRow) (m : GenFieldMapping)
        (pre post : List GenFieldMapping), m.fieldName ∉ doc.map Prod.fst →
        fillRow doc row (pre ++ m :: post) = fillRow doc row (pre ++ post)) ∧
      (∀ (tdoc : Doc) (saveDoc : Doc → Except String PdfBytes)
        (mappings : List GenFieldMapping) (nt : NamingTemplateT)
        (nowISO : String) (rows : List DataRow),
        (∀ d, ∃ bytes, saveDoc d = .ok bytes) →
        ∃ files, generateZipInBrowser (.ok tdoc) saveDoc mappings nt nowISO
          rows = .ok files) ∧
      (∀ (e : String) (saveDoc : Doc → Except String PdfBytes)
        (mappings : List GenFieldMapping) (nt : NamingTemplateT)
        (nowISO : String) (row : DataRow) (rest : List DataRow),
        ∃ msg, generateZipInBrowser (.error e) saveDoc mappings nt nowISO
          (row :: rest) = .error msg) ∧
      (∀ (tdoc : Doc) (e : String) (mappings : List GenFieldMapping)
        (nt : NamingTemplateT) (nowISO : String) (row : DataRow)
        (rest : List DataRow),
        ∃ msg, generateZipInBrowser (.ok tdoc) (fun _ => .error e) mappings
          nt nowISO (row :: rest) = .error msg) := by
  refine ⟨?_, ?_, ?_, ?_⟩
  · intro doc row m pre post hmissing
    unfold fillRow
    rw [List.foldl_append, List.foldl_append, List.foldl_cons]
    have hnames : m.fieldName ∉
        (pre.foldl (fun d mm => applyMapping d row mm) doc).map Prod.fst := by
      have := fillRow_names doc row pre
      unfold fillRow at this
      rw [this]
      exact hmissing
    rw [applyMapping_missing_field _ row m hnames]
  · intro tdoc saveDoc mappings nt nowISO rows hsave
    suffices h : ∀ (rows : List DataRow) (n : Nat) (used : List String)
        (acc : List (String × PdfBytes)),
        ∃ files, generateZipRows (.ok tdoc) saveDoc mappings nt nowISO rows n
          used acc = .ok files by
      exact h rows 1 [] []
    intro rows
    induction rows with
    | nil => intro n used acc; exact ⟨acc.reverse, rfl⟩
    | cons row rest ih =>
      intro n used acc
      obtain ⟨bytes, hbytes⟩ := hsave (fillRow tdoc row mappings)
      have hrow : processRow (.ok tdoc) saveDoc mappings nt nowISO used n row =
          .ok (uniquifyForZip (buildGenFilename nt row n nowISO) used, bytes,
            uniquifyForZip (buildGenFilename nt row n nowISO) used :: used) := by
        have hred : processRow (.ok tdoc) saveDoc mappings nt nowISO used n row =
            (match saveDoc (fillRow tdoc row mappings) with
              | .error e => .error e
              | .ok bs =>
                .ok (uniquifyForZip (buildGenFilename nt row n nowISO) used, bs,
                  uniquifyForZip (buildGenFilename nt row n nowISO) used :: used)) :=
          rfl
        rw [hred, hbytes]
      obtain ⟨files, hfiles⟩ := ih (n + 1)
        (uniquifyForZip (buildGenFilename nt row n nowISO) used :: used)
        ((uniquifyForZip (buildGenFilename nt row n nowISO) used, bytes) :: acc)
      refine ⟨files, ?_⟩
      show generateZipRows _ _ _ _ _ (row :: rest) _ _ _ = _
      rw [generateZipRows, hrow]
      exact hfiles
  · intro e saveDoc mappings nt nowISO row rest
    exact ⟨"Failed to process row " ++ toString 1 ++ ": " ++ e, rfl⟩
  · intro tdoc e mappings nt nowISO row rest
    exact ⟨"Failed to process row " ++ toString 1 ++ ": " ++ e, rfl⟩

/-- Witness for `generateZip_error_semantics` on concrete inputs: a mapping
to a missing field `Ghost` is skipped while the mapping to `A` still
applies; a batch with a working save succeeds; a failing load and a failing
save each abort the one-row batch. -/
theorem generateZip_error_semantics_witness :
    fillRow [("A", "old")] [("col", "v")]
        ([] ++ ⟨"Ghost", "col"⟩ :: [⟨"A", "col"⟩]) =
      fillRow [("A", "old")] [("col", "v")] ([] ++ [⟨"A", "col"⟩]) ∧
      (∃ files, generateZipInBrowser (.ok [("A", "old")]) (fun _ => .ok [0])
        [⟨"Ghost", "col"⟩] ⟨"doc.pdf", []⟩ "t" [[("col", "v")]] = .ok files) ∧
      (∃ msg, generateZipInBrowser (.error "load failed") (fun _ => .ok [0])
        [] ⟨"doc.pdf", []⟩ "t" [[("col", "v")]] = .error msg) ∧
      (∃ msg, generateZipInBrowser (.ok [("A", "old")])
        (fun _ => .error "save failed") [] ⟨"doc.pdf", []⟩ "t"
        [[("col", "v")]] = .error msg) :=
  ⟨generateZip_error_semantics.1 [("A", "old")] [("col", "v")] ⟨"Ghost", "col"⟩
      [] [⟨"A", "col"⟩] (by decide),
    generateZip_error_semantics.2.1 [("A", "old")] (fun _ => .ok [0])
      [⟨"Ghost", "col"⟩] ⟨"doc.pdf", []⟩ "t" [[("col", "v")]]
      (fun d => ⟨[0], rfl⟩),
    generateZip_error_semantics.2.2.1 "load failed" (fun _ => .ok [0]) []
      ⟨"doc.pdf", []⟩ "t" [("col", "v")] [],
    generateZip_error_semantics.2.2.2 [("A", "old")] "save failed" []
      ⟨"doc.pdf", []⟩ "t" [("col", "v")] []⟩

/-- C10: when the mapped CSV cell of a row is the empty string or the column
is absent from the row, the mapping writes nothing — the document keeps
whatever value the template already holds for that field. -/
theorem applyMapping_empty_cell_is_noop (doc : Doc) (row : DataRow)
    (m : GenFieldMapping)
    (h : lookupRow row m.columnName = none ∨
      lookupRow row m.columnName = some "") :
    applyMapping doc row m = doc := by
  unfold applyMapping
  cases hf : getFieldE doc m.fieldName with
  | error e => rfl
  | ok v =>
    have hval : (lookupRow row m.columnName).getD "" = "" := by
      rcases h with h | h <;> rw [h] <;> rfl
    rw [hval, if_pos rfl]

/-- Witness for `applyMapping_empty_cell_is_noop`: an empty cell leaves the
template's preexisting field value untouched. -/
theorem applyMapping_empty_cell_is_noop_witness :
    applyMapping [("A", "template value")] [("col", "")] ⟨"A", "col"⟩ =
      [("A", "template value")] :=
  applyMapping_empty_cell_is_noop [("A", "template value")] [("col", "")]
    ⟨"A", "col"⟩ (Or.inr (by decide))

end PdfBatch
